import Mathlib

/-!
Verification of the review-state and statistics coordination layer of the
`spaced` flashcard application, shallowly embedded from the Go sources
(`fsrs_manager.go`, `card.go`, the statistics manager and the SQLite
repositories).  Timestamps are modelled as integers (seconds since Go's zero
`time.Time`, so `0` stands for the zero time), calendar dates as integer day
numbers (canonical `YYYY-MM-DD` strings order lexicographically exactly like
their day numbers), and the SQLite tables as association lists keyed by their
primary key.
-/

namespace Spaced

/-- Ratings of the external FSRS scheduler (`fsrs.Rating`). -/
inductive Rating where
  | again
  | hard
  | good
  | easy
deriving DecidableEq

/-- The external scheduler's per-card state (`fsrs.Card`): the due timestamp
plus an opaque payload (stability, difficulty, ...) that this layer never
inspects, only passes through. -/
structure FSRSCard where
  due : Int
  payload : Int
deriving DecidableEq

/-- `fsrs.NewCard()`: a fresh scheduler state.  The coordination layer never
consults its `due` field while the review count is `0`. -/
def newFSRSCard : FSRSCard := ⟨0, 0⟩

/-- The external scheduler contract, `fsrs.FSRS.Next(card, now, rating).Card`:
from the current opaque state, the current time and a rating it produces the
updated opaque state (which carries the new due timestamp). -/
def Scheduler : Type := FSRSCard → Int → Rating → FSRSCard

/-- A flashcard (`Card` in `card.go`).  `id` is the database identity
(`0` for pure file-backed cards). -/
structure Card where
  id : Int
  question : String
  answer : String
  filePath : String
  lineNum : Nat
deriving DecidableEq

/-- Per-card review state (`ReviewState` in `fsrs_manager.go`). -/
structure ReviewState where
  cardID : String
  fsrsCard : FSRSCard
  lastReview : Int
  reviewCount : Nat
deriving DecidableEq

/-- `FSRSManager.getCardID`: the in-memory cache key `filePath:lineNum`. -/
def getCardID (c : Card) : String := c.filePath ++ ":" ++ toString c.lineNum

/-- A row of the `review_states` table (`DBReviewState`).  The JSON
serialization of the FSRS card (`FSRSCardToJSON` / `JSONToFSRSCard`) is a
lossless round trip, so the blob is modelled by the card itself. -/
structure DBReviewState where
  id : Int
  cardID : Int
  fsrsCardData : FSRSCard
  lastReview : Int
  reviewCount : Nat
  dueDate : Int
deriving DecidableEq

/-- Lookup in an association list, the model of both the in-memory Go map and
a SQLite `SELECT ... WHERE key = ?`. -/
def lookupA {α β : Type} [DecidableEq α] : List (α × β) → α → Option β
  | [], _ => none
  | (k, w) :: rest, key => if k = key then some w else lookupA rest key

/-- Insert-or-replace in an association list, the model of a Go map write and
of a SQLite `INSERT` / `UPDATE ... WHERE key = ?` pair. -/
def setA {α β : Type} [DecidableEq α] : List (α × β) → α → β → List (α × β)
  | [], key, v => [(key, v)]
  | (k, w) :: rest, key, v =>
      if k = key then (key, v) :: rest else (k, w) :: setA rest key v

theorem lookupA_setA_self {α β : Type} [DecidableEq α]
    (l : List (α × β)) (k : α) (v : β) : lookupA (setA l k v) k = some v := by
  induction l with
  | nil => simp [setA, lookupA]
  | cons p rest ih =>
      obtain ⟨k', w⟩ := p
      by_cases h : k' = k
      · subst h
        simp [setA, lookupA]
      · simp [setA, lookupA, h, ih]

theorem mem_setA {α β : Type} [DecidableEq α]
    (l : List (α × β)) (k : α) (v : β) (p : α × β) :
    p ∈ setA l k v → p = (k, v) ∨ p ∈ l := by
  induction l with
  | nil =>
      intro hp
      simp only [setA, List.mem_singleton] at hp
      exact Or.inl hp
  | cons q rest ih =>
      obtain ⟨k', w⟩ := q
      intro hp
      simp only [setA] at hp
      by_cases h : k' = k
      · rw [if_pos h] at hp
        rcases List.mem_cons.mp hp with h1 | h2
        · exact Or.inl h1
        · exact Or.inr (List.mem_cons_of_mem _ h2)
      · rw [if_neg h] at hp
        rcases List.mem_cons.mp hp with h1 | h2
        · exact Or.inr (h1 ▸ List.mem_cons_self _ _)
        · rcases ih h2 with h3 | h3
          · exact Or.inl h3
          · exact Or.inr (List.mem_cons_of_mem _ h3)

/-- `FSRSManager.GetCardState`, in-memory branch (no database, or no store
identity): look the card up in the `states` map and lazily create a fresh
zero state on a miss.  Returns the resolved state together with the map as it
is afterwards. -/
def getCardStateMem (states : List (String × ReviewState)) (card : Card) :
    ReviewState × List (String × ReviewState) :=
  let cid := getCardID card
  match lookupA states cid with
  | some st => (st, states)
  | none =>
      let st : ReviewState := ⟨cid, newFSRSCard, 0, 0⟩
      (st, setA states cid st)

/-- The `DBReviewState` row `GetCardState` creates for a fresh state. -/
def dbOfState (cardID : Int) (st : ReviewState) : DBReviewState :=
  ⟨0, cardID, st.fsrsCard, st.lastReview, st.reviewCount, st.fsrsCard.due⟩

/-- `FSRSManager.GetCardState`, database branch (`useDatabase`, a configured
`reviewRepo`, and `card.ID > 0`): read the row for the card, converting it to
a `ReviewState`; on a miss create a zero state and insert it into the
repository. -/
def getCardStateDB (repo : List (Int × DBReviewState)) (card : Card) :
    ReviewState × List (Int × DBReviewState) :=
  match lookupA repo card.id with
  | some db => (⟨getCardID card, db.fsrsCardData, db.lastReview, db.reviewCount⟩, repo)
  | none =>
      let st : ReviewState := ⟨getCardID card, newFSRSCard, 0, 0⟩
      (st, setA repo card.id (dbOfState card.id st))

/-- `FSRSManager.IsCardDue`, in-memory branch: a card with review count `0`
is always due, otherwise it is due when `time.Now().After(due)`. -/
def isCardDueMem (states : List (String × ReviewState)) (card : Card)
    (now : Int) : Bool :=
  let st := (getCardStateMem states card).1
  if st.reviewCount = 0 then true else decide (st.fsrsCard.due < now)

/-- `FSRSManager.IsCardDue`, database branch. -/
def isCardDueDB (repo : List (Int × DBReviewState)) (card : Card)
    (now : Int) : Bool :=
  let st := (getCardStateDB repo card).1
  if st.reviewCount = 0 then true else decide (st.fsrsCard.due < now)

/-- `FSRSManager.ReviewCard`, file-backed path.  The cached state is mutated
in place (scheduler step, last-review stamp, review-count increment) and only
then `SaveState` rewrites the state file; `saveOk` models whether that file
write succeeds.  Returns the error (if any) and the states map the caller
observes afterwards. -/
def reviewCardMem (next : Scheduler) (states : List (String × ReviewState))
    (card : Card) (rating : Rating) (now : Int) (saveOk : Bool) :
    Option String × List (String × ReviewState) :=
  let resolved := getCardStateMem states card
  let st := resolved.1
  let st' : ReviewState :=
    { st with fsrsCard := next st.fsrsCard now rating, lastReview := now,
              reviewCount := st.reviewCount + 1 }
  let states2 := setA resolved.2 (getCardID card) st'
  if saveOk then (none, states2) else (some "failed to write state file", states2)

/-- `FSRSManager.ReviewCard`, database path.  After the scheduler step the
updated state is written through the repository (`Create` when the row is
missing, `Update` otherwise); `writeOk` models whether that write succeeds.
On failure the repository is left as it was after `GetCardState`. -/
def reviewCardDB (next : Scheduler) (repo : List (Int × DBReviewState))
    (card : Card) (rating : Rating) (now : Int) (writeOk : Bool) :
    Option String × List (Int × DBReviewState) :=
  let resolved := getCardStateDB repo card
  let st := resolved.1
  let st' : ReviewState :=
    { st with fsrsCard := next st.fsrsCard now rating, lastReview := now,
              reviewCount := st.reviewCount + 1 }
  if writeOk then
    match lookupA resolved.2 card.id with
    | none => (none, setA resolved.2 card.id (dbOfState card.id st'))
    | some existing =>
        (none, setA resolved.2 card.id
          ⟨existing.id, card.id, st'.fsrsCard, st'.lastReview, st'.reviewCount,
           st'.fsrsCard.due⟩)
  else (some "database write failed", resolved.2)

theorem getCardStateDB_cardID (repo : List (Int × DBReviewState)) (card : Card) :
    (getCardStateDB repo card).1.cardID = getCardID card := by
  unfold getCardStateDB
  cases lookupA repo card.id <;> rfl

/-- C1 counterexample: in the file-backed path, with one previously reviewed
card (review count 3) and a failing state-file write, `ReviewCard` returns an
error and yet the review count the caller observes afterwards is 4. -/
theorem reviewCard_error_observable_mutation :
    (reviewCardMem (fun c _ _ => c)
        [("deck.txt:3", ⟨"deck.txt:3", ⟨50, 0⟩, 10, 3⟩)]
        ⟨1, "q", "a", "deck.txt", 3⟩ .good 100 false).1.isSome = true ∧
    (getCardStateMem
        (reviewCardMem (fun c _ _ => c)
          [("deck.txt:3", ⟨"deck.txt:3", ⟨50, 0⟩, 10, 3⟩)]
          ⟨1, "q", "a", "deck.txt", 3⟩ .good 100 false).2
        ⟨1, "q", "a", "deck.txt", 3⟩).1.reviewCount = 4 ∧
    (getCardStateMem [("deck.txt:3", ⟨"deck.txt:3", ⟨50, 0⟩, 10, 3⟩)]
        ⟨1, "q", "a", "deck.txt", 3⟩).1.reviewCount = 3 := by
  exact ⟨rfl, rfl, rfl⟩

/-- C1 (amended): in the relational-store path `ReviewCard` fails atomically —
on a failed repository write it returns an error and the state resolved
afterwards equals the state resolved before the call; in the file-backed path
it does not — on a failed `SaveState` it returns an error but the in-memory
review-count increment (together with the scheduler and last-review updates)
remains observable to the caller. -/
theorem applyRating_atomicity :
    (∀ (next : Scheduler) (repo : List (Int × DBReviewState)) (card : Card)
        (rating : Rating) (now : Int),
        (reviewCardDB next repo card rating now false).1.isSome = true ∧
        (getCardStateDB (reviewCardDB next repo card rating now false).2 card).1 =
          (getCardStateDB repo card).1) ∧
    (∀ (next : Scheduler) (states : List (String × ReviewState)) (card : Card)
        (rating : Rating) (now : Int),
        (reviewCardMem next states card rating now false).1.isSome = true ∧
        (getCardStateMem (reviewCardMem next states card rating now false).2 card).1.reviewCount =
          (getCardStateMem states card).1.reviewCount + 1) := by
  constructor
  · intro next repo card rating now
    refine ⟨rfl, ?_⟩
    unfold reviewCardDB getCardStateDB
    cases h : lookupA repo card.id with
    | some db => simp [h]
    | none => simp [h, lookupA_setA_self, dbOfState, newFSRSCard]
  · intro next states card rating now
    refine ⟨rfl, ?_⟩
    unfold reviewCardMem getCardStateMem
    cases h : lookupA states (getCardID card) with
    | some st => simp [h, lookupA_setA_self]
    | none => simp [h, lookupA_setA_self]

/-- C2: the two code paths agree: given equal resolved review counts and due
timestamps, `IsCardDue` returns the same boolean on the in-memory and the
database path; and given equal resolved states, a successful `ReviewCard`
leaves both paths with the same resolved `ReviewState` (same scheduler
invocation, same last-review update, same review-count increment). -/
theorem dual_backend_agree :
    ∀ (next : Scheduler) (states : List (String × ReviewState))
      (repo : List (Int × DBReviewState)) (card : Card) (rating : Rating) (now : Int),
      ((getCardStateMem states card).1.reviewCount = (getCardStateDB repo card).1.reviewCount →
       (getCardStateMem states card).1.fsrsCard.due = (getCardStateDB repo card).1.fsrsCard.due →
       isCardDueMem states card now = isCardDueDB repo card now) ∧
      ((getCardStateMem states card).1 = (getCardStateDB repo card).1 →
       (getCardStateMem (reviewCardMem next states card rating now true).2 card).1 =
       (getCardStateDB (reviewCardDB next repo card rating now true).2 card).1) := by
  intro next states repo card rating now
  constructor
  · intro h1 h2
    simp only [isCardDueMem, isCardDueDB]
    rw [h1, h2]
  · intro h
    have hmem : (getCardStateMem (reviewCardMem next states card rating now true).2 card).1 =
        { (getCardStateMem states card).1 with
          fsrsCard := next (getCardStateMem states card).1.fsrsCard now rating,
          lastReview := now,
          reviewCount := (getCardStateMem states card).1.reviewCount + 1 } := by
      unfold reviewCardMem getCardStateMem
      cases hm : lookupA states (getCardID card) with
      | some st => simp [hm, lookupA_setA_self]
      | none => simp [hm, lookupA_setA_self]
    have hdb : (getCardStateDB (reviewCardDB next repo card rating now true).2 card).1 =
        { (getCardStateDB repo card).1 with
          cardID := getCardID card,
          fsrsCard := next (getCardStateDB repo card).1.fsrsCard now rating,
          lastReview := now,
          reviewCount := (getCardStateDB repo card).1.reviewCount + 1 } := by
      unfold reviewCardDB getCardStateDB
      cases hd : lookupA repo card.id with
      | some db => simp [hd, lookupA_setA_self, dbOfState]
      | none => simp [hd, lookupA_setA_self, dbOfState, newFSRSCard]
    rw [hmem, hdb, h]
    have hcid : (getCardStateDB repo card).1.cardID = getCardID card :=
      getCardStateDB_cardID repo card
    cases h' : (getCardStateDB repo card).1 with
    | mk cid fc lr rc =>
        have : cid = getCardID card := by rw [h'] at hcid; exact hcid
        simp [this]

/-- C8: for a card with no existing review state (in whichever backend), the
lazily created state has review count 0 and the card is immediately due,
regardless of the current time. -/
theorem fresh_state_zero_and_due :
    ∀ (states : List (String × ReviewState)) (repo : List (Int × DBReviewState))
      (card : Card) (now : Int),
      lookupA states (getCardID card) = none →
      lookupA repo card.id = none →
      (getCardStateMem states card).1.reviewCount = 0 ∧
      (getCardStateDB repo card).1.reviewCount = 0 ∧
      isCardDueMem states card now = true ∧
      isCardDueDB repo card now = true := by
  intro states repo card now h1 h2
  refine ⟨?_, ?_, ?_, ?_⟩ <;>
    simp [getCardStateMem, getCardStateDB, isCardDueMem, isCardDueDB, h1, h2]

/-- Witness for C8 at a concrete card, empty stores and a time far in the
past. -/
theorem fresh_state_zero_and_due_witness :
    (getCardStateMem [] ⟨1, "q", "a", "f.txt", 1⟩).1.reviewCount = 0 ∧
    (getCardStateDB [] ⟨1, "q", "a", "f.txt", 1⟩).1.reviewCount = 0 ∧
    isCardDueMem [] ⟨1, "q", "a", "f.txt", 1⟩ (-100) = true ∧
    isCardDueDB [] ⟨1, "q", "a", "f.txt", 1⟩ (-100) = true :=
  fresh_state_zero_and_due [] [] ⟨1, "q", "a", "f.txt", 1⟩ (-100) rfl rfl

/-- C9: a successful `ReviewCard` increments the persisted review count by
exactly one, and — under the external scheduler contract that the new due
timestamp is never before `now` — the resolved due timestamp afterwards is at
least the time of the call, on both paths. -/
theorem applyRating_count_and_due :
    ∀ (next : Scheduler) (states : List (String × ReviewState))
      (repo : List (Int × DBReviewState)) (card : Card) (rating : Rating) (now : Int),
      (∀ c t r, t ≤ (next c t r).due) →
      ((reviewCardMem next states card rating now true).1 = none ∧
       (getCardStateMem (reviewCardMem next states card rating now true).2 card).1.reviewCount =
         (getCardStateMem states card).1.reviewCount + 1 ∧
       now ≤ (getCardStateMem (reviewCardMem next states card rating now true).2 card).1.fsrsCard.due) ∧
      ((reviewCardDB next repo card rating now true).1 = none ∧
       (getCardStateDB (reviewCardDB next repo card rating now true).2 card).1.reviewCount =
         (getCardStateDB repo card).1.reviewCount + 1 ∧
       now ≤ (getCardStateDB (reviewCardDB next repo card rating now true).2 card).1.fsrsCard.due) := by
  intro next states repo card rating now hsched
  have hmem : (getCardStateMem (reviewCardMem next states card rating now true).2 card).1 =
      { (getCardStateMem states card).1 with
        fsrsCard := next (getCardStateMem states card).1.fsrsCard now rating,
        lastReview := now,
        reviewCount := (getCardStateMem states card).1.reviewCount + 1 } := by
    unfold reviewCardMem getCardStateMem
    cases hm : lookupA states (getCardID card) with
    | some st => simp [hm, lookupA_setA_self]
    | none => simp [hm, lookupA_setA_self]
  have hdb : (getCardStateDB (reviewCardDB next repo card rating now true).2 card).1 =
      { (getCardStateDB repo card).1 with
        cardID := getCardID card,
        fsrsCard := next (getCardStateDB repo card).1.fsrsCard now rating,
        lastReview := now,
        reviewCount := (getCardStateDB repo card).1.reviewCount + 1 } := by
    unfold reviewCardDB getCardStateDB
    cases hd : lookupA repo card.id with
    | some db => simp [hd, lookupA_setA_self, dbOfState]
    | none => simp [hd, lookupA_setA_self, dbOfState, newFSRSCard]
  refine ⟨⟨?_, ?_, ?_⟩, ⟨?_, ?_, ?_⟩⟩
  · rfl
  · rw [hmem]
  · rw [hmem]
    exact hsched _ _ _
  · simp only [reviewCardDB]
    cases hd : lookupA (getCardStateDB repo card).2 card.id <;> simp [hd]
  · rw [hdb]
  · rw [hdb]
    exact hsched _ _ _

/-- Witness for C9: the stay-put scheduler `fun _ t _ => ⟨t, 0⟩` satisfies the
contract, and the conclusions hold at a concrete card and empty stores. -/
theorem applyRating_count_and_due_witness :
    ((reviewCardMem (fun _ t _ => ⟨t, 0⟩) [] ⟨2, "q", "a", "f.txt", 5⟩ .good 7 true).1 = none ∧
     (getCardStateMem (reviewCardMem (fun _ t _ => ⟨t, 0⟩) [] ⟨2, "q", "a", "f.txt", 5⟩ .good 7 true).2
        ⟨2, "q", "a", "f.txt", 5⟩).1.reviewCount =
       (getCardStateMem [] ⟨2, "q", "a", "f.txt", 5⟩).1.reviewCount + 1 ∧
     (7 : Int) ≤ (getCardStateMem (reviewCardMem (fun _ t _ => ⟨t, 0⟩) [] ⟨2, "q", "a", "f.txt", 5⟩ .good 7 true).2
        ⟨2, "q", "a", "f.txt", 5⟩).1.fsrsCard.due) ∧
    ((reviewCardDB (fun _ t _ => ⟨t, 0⟩) [] ⟨2, "q", "a", "f.txt", 5⟩ .good 7 true).1 = none ∧
     (getCardStateDB (reviewCardDB (fun _ t _ => ⟨t, 0⟩) [] ⟨2, "q", "a", "f.txt", 5⟩ .good 7 true).2
        ⟨2, "q", "a", "f.txt", 5⟩).1.reviewCount =
       (getCardStateDB [] ⟨2, "q", "a", "f.txt", 5⟩).1.reviewCount + 1 ∧
     (7 : Int) ≤ (getCardStateDB (reviewCardDB (fun _ t _ => ⟨t, 0⟩) [] ⟨2, "q", "a", "f.txt", 5⟩ .good 7 true).2
        ⟨2, "q", "a", "f.txt", 5⟩).1.fsrsCard.due) :=
  applyRating_count_and_due (fun _ t _ => ⟨t, 0⟩) [] [] ⟨2, "q", "a", "f.txt", 5⟩ .good 7
    (fun _ _ _ => le_refl _)

/-- Witness for C2 at empty stores, where both paths resolve the same fresh
state. -/
theorem dual_backend_agree_witness :
    isCardDueMem [] ⟨3, "q", "a", "f.txt", 2⟩ 11 = isCardDueDB [] ⟨3, "q", "a", "f.txt", 2⟩ 11 ∧
    (getCardStateMem (reviewCardMem (fun c _ _ => c) [] ⟨3, "q", "a", "f.txt", 2⟩ .easy 11 true).2
       ⟨3, "q", "a", "f.txt", 2⟩).1 =
    (getCardStateDB (reviewCardDB (fun c _ _ => c) [] ⟨3, "q", "a", "f.txt", 2⟩ .easy 11 true).2
       ⟨3, "q", "a", "f.txt", 2⟩).1 :=
  ⟨(dual_backend_agree (fun c _ _ => c) [] [] ⟨3, "q", "a", "f.txt", 2⟩ .easy 11).1 rfl rfl,
   (dual_backend_agree (fun c _ _ => c) [] [] ⟨3, "q", "a", "f.txt", 2⟩ .easy 11).2 rfl⟩

/-! ### Card ingestion (`card.go`) -/

/-- Does `pat` occur at the start of the character list (`strings.HasPrefix`)? -/
def leadsWith : List Char → List Char → Bool
  | [], _ => true
  | _ :: _, [] => false
  | p :: ps, c :: cs => p == c && leadsWith ps cs

/-- `strings.TrimSpace`: drop leading and trailing whitespace. -/
def trimS (s : String) : String :=
  ⟨((s.data.dropWhile Char.isWhitespace).reverse.dropWhile Char.isWhitespace).reverse⟩

/-- Worker for `strings.Split` with a non-empty separator: scan left to
right, emitting a segment at each non-overlapping separator occurrence.
`skip` counts separator characters still to be consumed after a match. -/
def splitStep (sep : List Char) : List Char → Nat → List Char → List (List Char)
  | [], _, acc => [acc.reverse]
  | _ :: cs, Nat.succ k, acc => splitStep sep cs k acc
  | c :: cs, 0, acc =>
      if leadsWith sep (c :: cs) then
        acc.reverse :: splitStep sep cs (sep.length - 1) []
      else splitStep sep cs 0 (c :: acc)

/-- `strings.Split(s, sep)` for a non-empty `sep`. -/
def splitOnS (s sep : String) : List String :=
  (splitStep sep.data s.data 0 []).map (fun cs => ⟨cs⟩)

/-- The UTF-8 byte length of a character. -/
def charBytes (c : Char) : Nat :=
  if c.toNat < 128 then 1
  else if c.toNat < 2048 then 2
  else if c.toNat < 65536 then 3
  else 4

/-- Go's `len` on a string: its UTF-8 byte count. -/
def byteLen (s : String) : Nat := s.data.foldl (fun n c => n + charBytes c) 0

/-- The ordered, fixed separator set tried by `CardParser.LoadFromFile`,
first occurrence wins. -/
def separators : List String := [">>", "::", "|"]

/-- `strings.Contains(line, sep)` for the nonempty separators above: `sep`
occurs in `line` iff splitting on it yields more than one fragment. -/
def containsSub (line sep : String) : Bool := (splitOnS line sep).length != 1

/-- The `parts` slice of `LoadFromFile`: split on the first separator that
occurs in the line; when none occurs `parts` stays nil. -/
def splitParts (line : String) : List String :=
  match separators.find? (fun sep => containsSub line sep) with
  | some sep => splitOnS line sep
  | none => []

/-- Outcome of one iteration of `LoadFromFile`'s scan loop for a single
physical line. -/
inductive LineResult where
  | skipped
  | rejected (reason : String)
  | card (q a : String)
deriving DecidableEq

/-- The question/answer validation of `LoadFromFile` once a line has split
into exactly two parts.  `len(...)` in Go counts bytes, hence
`utf8ByteSize`. -/
def validateSegments (p1 p2 : String) : LineResult :=
  let question := trimS p1
  let answer := trimS p2
  if question = "" then .rejected "Empty question part"
  else if answer = "" then .rejected "Empty answer part"
  else if byteLen question > 1000 ∨ byteLen answer > 1000 then
    .rejected "Question or answer exceeds 1000 characters - possible parsing error"
  else .card question answer

/-- One iteration of `CardParser.LoadFromFile`: trim, skip blank lines and
`#` comments, split on the first matching separator and validate.  (Lean
strings are always valid Unicode, so the invalid-UTF-8 rejection branch of
the source is unrepresentable here.) -/
def parseLine (rawLine : String) : LineResult :=
  let line := trimS rawLine
  if line = "" then .skipped
  else if leadsWith "#".data line.data then .skipped
  else
    match splitParts line with
    | [p1, p2] => validateSegments p1 p2
    | _ => .rejected "No valid separator found. Expected one of: >>, ::, |"

/-- The dedup check plus import of `LoadFromFile`: a parsed card is persisted
only if no card with the same (question, answer) pair exists in the store
(`CardRepository.CardExists` / `ImportFromText`). -/
def importIfAbsent (store : List (String × String)) (qa : String × String) :
    List (String × String) :=
  if qa ∈ store then store else store ++ [qa]

/-- The store effect of `CardParser.LoadFromFile` on a list of physical
lines: each successfully parsed line is imported unless a duplicate already
exists (including duplicates created earlier in the same pass). -/
def loadLines (store : List (String × String)) (lines : List String) :
    List (String × String) :=
  lines.foldl (fun s l =>
    match parseLine l with
    | .card q a => importIfAbsent s (q, a)
    | _ => s) store

theorem loadLines_cons (s : List (String × String)) (l : String) (rest : List String) :
    loadLines s (l :: rest) =
      loadLines (match parseLine l with
                 | .card q a => importIfAbsent s (q, a)
                 | _ => s) rest := rfl

theorem mem_importIfAbsent_self (s : List (String × String)) (qa : String × String) :
    qa ∈ importIfAbsent s qa := by
  unfold importIfAbsent
  by_cases h : qa ∈ s
  · rwa [if_pos h]
  · rw [if_neg h]
    exact List.mem_append_right _ (List.mem_singleton_self _)

theorem mem_importIfAbsent_of_mem (s : List (String × String)) (qa x : String × String)
    (hx : x ∈ s) : x ∈ importIfAbsent s qa := by
  unfold importIfAbsent
  by_cases h : qa ∈ s
  · rwa [if_pos h]
  · rw [if_neg h]
    exact List.mem_append_left _ hx

theorem importIfAbsent_eq_of_mem {s : List (String × String)} {qa : String × String}
    (h : qa ∈ s) : importIfAbsent s qa = s := by
  unfold importIfAbsent
  rw [if_pos h]

theorem mem_loadLines_of_mem :
    ∀ (lines : List String) (s : List (String × String)) (x : String × String),
      x ∈ s → x ∈ loadLines s lines := by
  intro lines
  induction lines with
  | nil => intro s x hx; exact hx
  | cons l rest ih =>
      intro s x hx
      rw [loadLines_cons]
      apply ih
      cases hp : parseLine l with
      | card q a => exact mem_importIfAbsent_of_mem _ _ _ hx
      | skipped => exact hx
      | rejected r => exact hx

theorem card_mem_loadLines :
    ∀ (lines : List String) (s : List (String × String)) (l q a : String),
      l ∈ lines → parseLine l = .card q a → (q, a) ∈ loadLines s lines := by
  intro lines
  induction lines with
  | nil => intro s l q a h _; exact absurd h (List.not_mem_nil l)
  | cons hd rest ih =>
      intro s l q a hl hp
      rw [loadLines_cons]
      rcases List.mem_cons.mp hl with h1 | h2
      · subst h1
        rw [hp]
        exact mem_loadLines_of_mem rest _ _ (mem_importIfAbsent_self s (q, a))
      · exact ih _ l q a h2 hp

theorem loadLines_eq_of_mem :
    ∀ (lines : List String) (s : List (String × String)),
      (∀ l q a, l ∈ lines → parseLine l = .card q a → (q, a) ∈ s) →
      loadLines s lines = s := by
  intro lines
  induction lines with
  | nil => intro s _; rfl
  | cons hd rest ih =>
      intro s h
      rw [loadLines_cons]
      have hstep : (match parseLine hd with
                    | LineResult.card q a => importIfAbsent s (q, a)
                    | _ => s) = s := by
        cases hp : parseLine hd with
        | card q a =>
            exact importIfAbsent_eq_of_mem (h hd q a (List.mem_cons_self _ _) hp)
        | skipped => rfl
        | rejected r => rfl
      rw [hstep]
      exact ih s (fun l q a hl hp => h l q a (List.mem_cons_of_mem _ hl) hp)

/-- C3: a line that, after trimming, is neither blank nor a comment and
splits on the first matching separator into exactly two non-empty trimmed
segments within the 1000-byte limit parses to a card whose question and
answer are those trimmed segments; and loading the same content a second time
against the same store creates no duplicate card — the store after the second
load equals the store after the first. -/
theorem deckline_parse_and_dedup :
    (∀ (rawLine sep p1 p2 : String),
        trimS rawLine ≠ "" →
        leadsWith "#".data (trimS rawLine).data = false →
        separators.find? (fun s => containsSub (trimS rawLine) s) = some sep →
        splitOnS (trimS rawLine) sep = [p1, p2] →
        trimS p1 ≠ "" → trimS p2 ≠ "" →
        byteLen (trimS p1) ≤ 1000 → byteLen (trimS p2) ≤ 1000 →
        parseLine rawLine = LineResult.card (trimS p1) (trimS p2)) ∧
    (∀ (store : List (String × String)) (lines : List String),
        loadLines (loadLines store lines) lines = loadLines store lines) := by
  constructor
  · intro rawLine sep p1 p2 hne hcom hsep hsplit hq ha hql hal
    have hline : ¬ (leadsWith "#".data (trimS rawLine).data = true) := by
      simp [hcom]
    have hparts : splitParts (trimS rawLine) = [p1, p2] := by
      unfold splitParts
      rw [hsep]
      show splitOnS (trimS rawLine) sep = [p1, p2]
      exact hsplit
    simp only [parseLine]
    rw [if_neg hne, if_neg hline, hparts]
    show validateSegments p1 p2 = LineResult.card (trimS p1) (trimS p2)
    simp only [validateSegments]
    rw [if_neg hq, if_neg ha,
        if_neg (by omega : ¬ (byteLen (trimS p1) > 1000 ∨ byteLen (trimS p2) > 1000))]
  · intro store lines
    exact loadLines_eq_of_mem lines _
      (fun l q a hl hp => card_mem_loadLines lines store l q a hl hp)

/-- Witness for C3 at the spec's own scenario line `"What is 2+2?>>4"`. -/
theorem deckline_parse_and_dedup_witness :
    parseLine "What is 2+2?>>4" = LineResult.card "What is 2+2?" "4" ∧
    loadLines (loadLines [] ["What is 2+2?>>4"]) ["What is 2+2?>>4"] =
      loadLines [] ["What is 2+2?>>4"] :=
  ⟨deckline_parse_and_dedup.1 "What is 2+2?>>4" ">>" "What is 2+2?" "4"
      (by decide) (by decide) (by decide) (by decide) (by decide) (by decide)
      (by decide) (by decide),
   deckline_parse_and_dedup.2 [] ["What is 2+2?>>4"]⟩

/-! ### Statistics engine (`StatisticsManager`) -/

/-- One record of the `daily_stats` map/table.  Calendar dates are modelled
by integer day numbers: canonical `YYYY-MM-DD` strings compare
lexicographically exactly like their day numbers. -/
structure DailyStats where
  date : Int
  cardsReviewed : Nat
  sessionTime : Int
  sessionCount : Nat
  newCards : Nat
  reviewedCards : Nat
deriving DecidableEq

/-- The in-memory `SessionStats` of the active session. -/
structure SessionStats where
  startTime : Int
  endTime : Int
  cardsReviewed : Nat
  newCards : Nat
  reviewedCards : Nat
deriving DecidableEq

/-- A stored date string as the streak logic sees it: the empty string
(never studied), a parseable `YYYY-MM-DD` date — modelled by its day
number — or an unparseable string (`time.Parse` fails). -/
inductive DateStr where
  | empty
  | invalid
  | valid (d : Int)
deriving DecidableEq

/-- `LearningStreak`. -/
structure LearningStreak where
  currentStreak : Nat
  longestStreak : Nat
  lastStudyDate : DateStr
deriving DecidableEq

/-- A row of the `sessions` table (`DBSession`).  `endTime = 0` is Go's zero
`time.Time`, i.e. `EndTime.IsZero()`. -/
structure DBSession where
  id : Int
  startTime : Int
  endTime : Int
  cardsReviewed : Nat
  newCards : Nat
  reviewedCards : Nat
deriving DecidableEq

/-- The `StatisticsManager` state: the in-memory daily-stats map, the active
session, the streak, and — in database mode — the `sessions` and
`daily_stats` tables (`nextSessionID` models the SQLite autoincrement,
starting at 1 so that created sessions have positive ids). -/
structure StatsManager where
  dailyStats : List (Int × DailyStats)
  currentSession : Option SessionStats
  learningStreak : LearningStreak
  useDatabase : Bool
  sessions : List (Int × DBSession)
  dbDailyStats : List (Int × DailyStats)
  currentSessionID : Int
  nextSessionID : Int
deriving DecidableEq

/-- The day number a date string parses to when it is not a valid date: the
source ignores the `time.Parse` error, leaving Go's zero time. -/
def zeroDay : Int := 0

/-- The day number `updateLearningStreak` computes for `today`. -/
def dayOf : DateStr → Int
  | .valid d => d
  | _ => zeroDay

/-- `StatisticsManager.updateLearningStreak`: first-ever study day starts
both counters at 1; an unparseable stored date resets the current streak; a
parseable one branches on the day difference (0: unchanged and the stored
date is not rewritten; 1: extend and track the longest; otherwise reset
to 1). -/
def updateLearningStreak (ls : LearningStreak) (today : DateStr) : LearningStreak :=
  match ls.lastStudyDate with
  | .empty => ⟨1, 1, today⟩
  | .invalid => ⟨1, ls.longestStreak, today⟩
  | .valid lastD =>
      if dayOf today - lastD = 0 then ls
      else if dayOf today - lastD = 1 then
        ⟨ls.currentStreak + 1, max ls.longestStreak (ls.currentStreak + 1), today⟩
      else ⟨1, ls.longestStreak, today⟩

/-- A fresh `LearningStreak` folded over a sequence of (valid) session-end
dates, as `EndSession` does once per session end. -/
def foldStreak (ds : List Int) : LearningStreak :=
  ds.foldl (fun ls d => updateLearningStreak ls (.valid d)) ⟨0, 0, .empty⟩

/-- `int(duration.Minutes())` for a duration in seconds. -/
def minutesOf (d : Int) : Int := d / 60

/-- The get-or-create-then-accumulate step both `EndSession` branches and
`aggregateSessionToDaily` perform on a daily-stats map: create the record
with the session's values, or add them onto the existing record. -/
def accumulateDaily (m : List (Int × DailyStats)) (date dur : Int)
    (cards newC revC : Nat) : List (Int × DailyStats) :=
  match lookupA m date with
  | none => setA m date ⟨date, cards, dur, 1, newC, revC⟩
  | some ds =>
      setA m date ⟨ds.date, ds.cardsReviewed + cards, ds.sessionTime + dur,
                   ds.sessionCount + 1, ds.newCards + newC, ds.reviewedCards + revC⟩

/-- `StatisticsManager.StartSession`: open a session with zero counters; in
database mode also create its `sessions` row and remember its id. -/
def startSession (sm : StatsManager) (now : Int) : StatsManager :=
  if sm.useDatabase = true then
    { sm with currentSession := some ⟨now, 0, 0, 0, 0⟩,
              sessions := setA sm.sessions sm.nextSessionID
                ⟨sm.nextSessionID, now, 0, 0, 0, 0⟩,
              currentSessionID := sm.nextSessionID,
              nextSessionID := sm.nextSessionID + 1 }
  else { sm with currentSession := some ⟨now, 0, 0, 0, 0⟩ }

/-- The counter bump of `RecordCardReview`: `CardsReviewed` plus one and
exactly one of `NewCards` / `ReviewedCards` plus one. -/
def bumpSession (cs : SessionStats) (isNewCard : Bool) : SessionStats :=
  ⟨cs.startTime, cs.endTime, cs.cardsReviewed + 1,
   cs.newCards + (if isNewCard then 1 else 0),
   cs.reviewedCards + (if isNewCard then 0 else 1)⟩

/-- Store the bumped session: in database mode with a known session id also
push the running counters into the `sessions` row (end time still zero). -/
def recordWith (sm : StatsManager) (cs' : SessionStats) : StatsManager :=
  if sm.useDatabase = true ∧ 0 < sm.currentSessionID then
    { sm with currentSession := some cs',
              sessions := (setA sm.sessions sm.currentSessionID
                ⟨sm.currentSessionID, cs'.startTime, 0, cs'.cardsReviewed,
                 cs'.newCards, cs'.reviewedCards⟩) }
  else { sm with currentSession := some cs' }

/-- The counter part of `StatisticsManager.RecordCardReview` once a session
is active. -/
def recordActive (sm : StatsManager) (isNewCard : Bool) : StatsManager :=
  match sm.currentSession with
  | none => sm
  | some cs => recordWith sm (bumpSession cs isNewCard)

/-- `StatisticsManager.RecordCardReview`: implicitly start a session when
idle, then record the review. -/
def recordCardReview (sm : StatsManager) (isNewCard : Bool) (now : Int) : StatsManager :=
  recordActive (if sm.currentSession.isNone then startSession sm now else sm) isNewCard

/-- The active session with its end time stamped. -/
def closeSession (cs0 : SessionStats) (now : Int) : SessionStats :=
  ⟨cs0.startTime, now, cs0.cardsReviewed, cs0.newCards, cs0.reviewedCards⟩

/-- The body of `EndSession` for a closed session `cs`: fold into today's
daily stats (database or in-memory branch), update the streak, clear the
active session. -/
def endWith (sm : StatsManager) (cs : SessionStats) (now today : Int) : StatsManager :=
  let dur := minutesOf (now - cs.startTime)
  let sm1 :=
    if sm.useDatabase = true then
      let sm2 :=
        if 0 < sm.currentSessionID then
          { sm with sessions := (setA sm.sessions sm.currentSessionID
              ⟨sm.currentSessionID, cs.startTime, cs.endTime, cs.cardsReviewed,
               cs.newCards, cs.reviewedCards⟩) }
        else sm
      { sm2 with dbDailyStats := (accumulateDaily sm2.dbDailyStats today dur
          cs.cardsReviewed cs.newCards cs.reviewedCards) }
    else
      { sm with dailyStats := (accumulateDaily sm.dailyStats today dur
          cs.cardsReviewed cs.newCards cs.reviewedCards) }
  { sm1 with learningStreak := updateLearningStreak sm1.learningStreak (.valid today),
             currentSession := none, currentSessionID := 0 }

/-- `StatisticsManager.EndSession` with the end timestamp `now` and the
current calendar date `today`: a no-op when idle; otherwise stamp the end
time and fold the session (`endWith`). -/
def endSession (sm : StatsManager) (now today : Int) : StatsManager :=
  match sm.currentSession with
  | none => sm
  | some cs0 => endWith sm (closeSession cs0 now) now today

theorem endSession_eq_of_none (sm : StatsManager) (now today : Int)
    (h : sm.currentSession = none) : endSession sm now today = sm := by
  unfold endSession
  rw [h]

/-- C6: after `EndSession` the engine is idle (no active session), and a
second immediate `EndSession` is a no-op — it returns the state unchanged,
so no daily-stats record, no streak field and no session record changes. -/
theorem endSession_idle_and_idempotent :
    ∀ (sm : StatsManager) (now today now2 today2 : Int),
      (endSession sm now today).currentSession = none ∧
      endSession (endSession sm now today) now2 today2 = endSession sm now today := by
  intro sm now today now2 today2
  have h1 : (endSession sm now today).currentSession = none := by
    unfold endSession
    cases h : sm.currentSession with
    | none => exact h
    | some cs => rfl
  exact ⟨h1, endSession_eq_of_none _ now2 today2 h1⟩

/-- The streak invariant maintained by every update with a valid date. -/
def StreakInv (ls : LearningStreak) : Prop :=
  ls.currentStreak ≤ ls.longestStreak ∧
  (ls.lastStudyDate ≠ DateStr.empty → 1 ≤ ls.currentStreak)

theorem update_of_empty (ls : LearningStreak) (today : DateStr)
    (h : ls.lastStudyDate = DateStr.empty) :
    updateLearningStreak ls today = ⟨1, 1, today⟩ := by
  unfold updateLearningStreak
  rw [h]

theorem update_of_invalid (ls : LearningStreak) (today : DateStr)
    (h : ls.lastStudyDate = DateStr.invalid) :
    updateLearningStreak ls today = ⟨1, ls.longestStreak, today⟩ := by
  unfold updateLearningStreak
  rw [h]

theorem update_of_valid (ls : LearningStreak) (today : DateStr) (lastD : Int)
    (h : ls.lastStudyDate = DateStr.valid lastD) :
    updateLearningStreak ls today =
      if dayOf today - lastD = 0 then ls
      else if dayOf today - lastD = 1 then
        ⟨ls.currentStreak + 1, max ls.longestStreak (ls.currentStreak + 1), today⟩
      else ⟨1, ls.longestStreak, today⟩ := by
  unfold updateLearningStreak
  rw [h]

theorem streakInv_update (ls : LearningStreak) (today : DateStr)
    (h : StreakInv ls) : StreakInv (updateLearningStreak ls today) := by
  obtain ⟨h1, h2⟩ := h
  cases hl : ls.lastStudyDate with
  | empty =>
      rw [update_of_empty ls today hl]
      exact ⟨le_refl 1, fun _ => le_refl 1⟩
  | invalid =>
      rw [update_of_invalid ls today hl]
      have hc : 1 ≤ ls.currentStreak := h2 (by rw [hl]; simp)
      exact ⟨le_trans hc h1, fun _ => le_refl 1⟩
  | valid lastD =>
      rw [update_of_valid ls today lastD hl]
      by_cases h0 : dayOf today - lastD = 0
      · rw [if_pos h0]
        exact ⟨h1, h2⟩
      · rw [if_neg h0]
        by_cases hone : dayOf today - lastD = 1
        · rw [if_pos hone]
          exact ⟨le_max_right _ _, fun _ => Nat.succ_le_succ (Nat.zero_le _)⟩
        · rw [if_neg hone]
          have hc : 1 ≤ ls.currentStreak := h2 (by rw [hl]; simp)
          exact ⟨le_trans hc h1, fun _ => le_refl 1⟩

theorem streakInv_fold (ds : List Int) : StreakInv (foldStreak ds) := by
  have haux : ∀ (l : List Int) (ls : LearningStreak), StreakInv ls →
      StreakInv (l.foldl (fun s d => updateLearningStreak s (.valid d)) ls) := by
    intro l
    induction l with
    | nil => intro ls h; exact h
    | cons d rest ih => intro ls h; exact ih _ (streakInv_update ls _ h)
  exact haux ds ⟨0, 0, .empty⟩ ⟨Nat.le_refl 0, fun hc => absurd rfl hc⟩

/-- C5: for every sequence of session-end dates folded into a fresh
`LearningStreak`, `longestStreak ≥ currentStreak` holds; and whenever the
stored last-study date is non-empty and either unparseable or a valid date
whose day difference to the folded date is greater than 1 or negative, the
update leaves `currentStreak` exactly 1. -/
theorem streak_invariant_and_reset :
    (∀ ds : List Int, (foldStreak ds).currentStreak ≤ (foldStreak ds).longestStreak) ∧
    (∀ (ls : LearningStreak) (today : DateStr),
        ls.lastStudyDate ≠ DateStr.empty →
        (∀ lastD, ls.lastStudyDate = DateStr.valid lastD →
            1 < dayOf today - lastD ∨ dayOf today - lastD < 0) →
        (updateLearningStreak ls today).currentStreak = 1) := by
  constructor
  · intro ds
    exact (streakInv_fold ds).1
  · intro ls today hne hdiff
    cases hl : ls.lastStudyDate with
    | empty => exact absurd hl hne
    | invalid => rw [update_of_invalid ls today hl]
    | valid lastD =>
        have h := hdiff lastD hl
        rw [update_of_valid ls today lastD hl, if_neg (by omega), if_neg (by omega)]

/-- Witness for C5: folding the spec's own scenario (days 0, 1, then a
3-day gap to day 4) keeps `longest ≥ current`, and a gap of 4 days from a
streak of 2 resets the current streak to 1. -/
theorem streak_invariant_and_reset_witness :
    (foldStreak [0, 1, 4]).currentStreak ≤ (foldStreak [0, 1, 4]).longestStreak ∧
    (updateLearningStreak ⟨2, 2, DateStr.valid 10⟩ (DateStr.valid 14)).currentStreak = 1 :=
  ⟨streak_invariant_and_reset.1 [0, 1, 4],
   streak_invariant_and_reset.2 ⟨2, 2, DateStr.valid 10⟩ (DateStr.valid 14)
     (by simp)
     (fun lastD h => by
        injection h with h
        subst h
        left
        decide)⟩

/-! ### Statistics export (`StatisticsManager.ExportToCSV`) -/

theorem lookupA_mem {α β : Type} [DecidableEq α] {l : List (α × β)} {k : α} {v : β}
    (h : lookupA l k = some v) : (k, v) ∈ l := by
  induction l with
  | nil => simp [lookupA] at h
  | cons p rest ih =>
      obtain ⟨k', w⟩ := p
      simp only [lookupA] at h
      by_cases hk : k' = k
      · rw [if_pos hk] at h
        injection h with h2
        subst h2
        subst hk
        exact List.mem_cons_self _ _
      · rw [if_neg hk] at h
        exact List.mem_cons_of_mem _ (ih h)

theorem lookupA_of_mem_keys {α β : Type} [DecidableEq α] {l : List (α × β)} {k : α}
    (h : k ∈ l.map Prod.fst) : ∃ v, lookupA l k = some v := by
  induction l with
  | nil => simp at h
  | cons p rest ih =>
      obtain ⟨k', w⟩ := p
      simp only [List.map_cons, List.mem_cons] at h
      by_cases hk : k' = k
      · exact ⟨w, by simp [lookupA, hk]⟩
      · rcases h with h | h
        · exact absurd h.symm hk
        · obtain ⟨v, hv⟩ := ih h
          exact ⟨v, by simp [lookupA, hk, hv]⟩

/-- The fixed header line `ExportToCSV` writes first. -/
def csvHeader : String :=
  "Date,Cards Reviewed,Session Time (min),Session Count,New Cards,Reviewed Cards"

/-- The data rows `ExportToCSV` writes: it sorts the keys of the in-memory
`dailyStats` map ascending (`sort.Strings`; on canonical date strings this is
the day-number order) and emits each date's record.  Note the source reads
only `sm.dailyStats`, never the daily-stats repository. -/
def exportRows (sm : StatsManager) : List DailyStats :=
  (List.insertionSort (· ≤ ·) (sm.dailyStats.map Prod.fst)).filterMap
    (fun d => lookupA sm.dailyStats d)

/-- `StatisticsManager.ExportToCSV`, modelled structurally: the header line
and the ordered data records. -/
def exportToCSV (sm : StatsManager) : String × List DailyStats :=
  (csvHeader, exportRows sm)

/-- C4 counterexample: a database-mode manager whose single `DailyStats`
record was recorded through the relational backend (`dbDailyStats`) exports
no data row at all — `ExportToCSV` reads only the in-memory map, which stays
empty in database mode. -/
theorem exportToCSV_ignores_relational_backend :
    (exportRows ⟨[], none, ⟨0, 0, DateStr.empty⟩, true,
        [], [(20000, ⟨20000, 3, 10, 1, 2, 1⟩)], 0, 1⟩).length = 0 ∧
    (⟨[], none, ⟨0, 0, DateStr.empty⟩, true,
        [], [(20000, ⟨20000, 3, 10, 1, 2, 1⟩)], 0, 1⟩ :
        StatsManager).dbDailyStats.length = 1 :=
  ⟨rfl, rfl⟩

theorem filterMap_lookup_dates (m : List (Int × DailyStats))
    (hf : ∀ p ∈ m, (Prod.snd p).date = p.1) :
    ∀ ds : List Int, (∀ d ∈ ds, d ∈ m.map Prod.fst) →
      (ds.filterMap (fun d => lookupA m d)).map DailyStats.date = ds := by
  intro ds
  induction ds with
  | nil => intro _; rfl
  | cons d rest ih =>
      intro hds
      obtain ⟨v, hv⟩ := lookupA_of_mem_keys (hds d (List.mem_cons_self _ _))
      have hvd : v.date = d := hf (d, v) (lookupA_mem hv)
      simp only [List.filterMap_cons, hv, List.map_cons, hvd]
      rw [ih (fun e he => hds e (List.mem_cons_of_mem _ he))]

/-- C4 (amended): the export writes the fixed header and then — for the
in-memory `dailyStats` map only; records produced through the relational
backend are not read by `ExportToCSV` — one data row per recorded date, in
ascending date order, each row being exactly that date's recorded
statistics.  (The hypothesis that each record's date field equals its map
key is the construction invariant of the source, which always stores
`dailyStats[today].Date = today`.) -/
theorem exportToCSV_file_backed :
    ∀ sm : StatsManager,
      (∀ p ∈ sm.dailyStats, (Prod.snd p).date = p.1) →
      (exportToCSV sm).1 = csvHeader ∧
      List.Sorted (· ≤ ·) ((exportRows sm).map DailyStats.date) ∧
      ((exportRows sm).map DailyStats.date).Perm (sm.dailyStats.map Prod.fst) ∧
      (∀ r ∈ exportRows sm, lookupA sm.dailyStats r.date = some r) := by
  intro sm hf
  have hdates : (exportRows sm).map DailyStats.date =
      List.insertionSort (· ≤ ·) (sm.dailyStats.map Prod.fst) := by
    unfold exportRows
    exact filterMap_lookup_dates sm.dailyStats hf _
      (fun d hd => (List.perm_insertionSort (· ≤ ·) (sm.dailyStats.map Prod.fst)).mem_iff.mp hd)
  refine ⟨rfl, ?_, ?_, ?_⟩
  · rw [hdates]
    exact List.sorted_insertionSort (· ≤ ·) _
  · rw [hdates]
    exact List.perm_insertionSort (· ≤ ·) _
  · intro r hr
    unfold exportRows at hr
    obtain ⟨d, _, hd2⟩ := List.mem_filterMap.mp hr
    have : r.date = d := hf (d, r) (lookupA_mem hd2)
    rw [this]
    exact hd2

/-- Witness for C4 at a concrete two-day in-memory map (dates out of order in
the map, sorted in the export). -/
theorem exportToCSV_file_backed_witness :
    (exportToCSV ⟨[(5, ⟨5, 2, 3, 1, 1, 1⟩), (3, ⟨3, 1, 4, 1, 0, 1⟩)], none,
        ⟨0, 0, DateStr.empty⟩, false, [], [], 0, 1⟩).1 = csvHeader ∧
    List.Sorted (· ≤ ·) ((exportRows ⟨[(5, ⟨5, 2, 3, 1, 1, 1⟩), (3, ⟨3, 1, 4, 1, 0, 1⟩)], none,
        ⟨0, 0, DateStr.empty⟩, false, [], [], 0, 1⟩).map DailyStats.date) ∧
    ((exportRows ⟨[(5, ⟨5, 2, 3, 1, 1, 1⟩), (3, ⟨3, 1, 4, 1, 0, 1⟩)], none,
        ⟨0, 0, DateStr.empty⟩, false, [], [], 0, 1⟩).map DailyStats.date).Perm
      ((⟨[(5, ⟨5, 2, 3, 1, 1, 1⟩), (3, ⟨3, 1, 4, 1, 0, 1⟩)], none,
        ⟨0, 0, DateStr.empty⟩, false, [], [], 0, 1⟩ : StatsManager).dailyStats.map Prod.fst) ∧
    (∀ r ∈ exportRows ⟨[(5, ⟨5, 2, 3, 1, 1, 1⟩), (3, ⟨3, 1, 4, 1, 0, 1⟩)], none,
        ⟨0, 0, DateStr.empty⟩, false, [], [], 0, 1⟩,
      lookupA (⟨[(5, ⟨5, 2, 3, 1, 1, 1⟩), (3, ⟨3, 1, 4, 1, 0, 1⟩)], none,
        ⟨0, 0, DateStr.empty⟩, false, [], [], 0, 1⟩ : StatsManager).dailyStats r.date = some r) :=
  exportToCSV_file_backed
    ⟨[(5, ⟨5, 2, 3, 1, 1, 1⟩), (3, ⟨3, 1, 4, 1, 0, 1⟩)], none,
     ⟨0, 0, DateStr.empty⟩, false, [], [], 0, 1⟩ (by decide)

/-! ### Orphan-session recovery (`CleanupOrphanedSessions`) -/

/-- The calendar date of a timestamp (`StartTime.Format("2006-01-02")`),
used only as a daily-stats key here. -/
def dayOfTime (t : Int) : Int := t / 86400

/-- The estimated end time of an unfinished session: 30 seconds per reviewed
card after its start. -/
def estimatedEndTime (s : DBSession) : Int :=
  s.startTime + 30 * (s.cardsReviewed : Int)

/-- `StatisticsManager.aggregateSessionToDaily`: fold a (now closed) session
into the daily stats of its start date. -/
def aggregateSessionToDaily (daily : List (Int × DailyStats)) (s : DBSession) :
    List (Int × DailyStats) :=
  accumulateDaily daily (dayOfTime s.startTime) (minutesOf (s.endTime - s.startTime))
    s.cardsReviewed s.newCards s.reviewedCards

/-- `StatisticsManager.endUnfinishedSessions`: for every stored session with
no end time but at least one reviewed card, stamp the estimated end time
into its row and fold it into the daily stats.  Rows are visited in
repository order and updated in place (SQLite primary keys are unique). -/
def endUnfinishedSessions :
    List (Int × DBSession) → List (Int × DailyStats) →
      List (Int × DBSession) × List (Int × DailyStats)
  | [], daily => ([], daily)
  | (k, s) :: rest, daily =>
      if s.endTime = 0 ∧ 0 < s.cardsReviewed then
        let s' : DBSession := ⟨s.id, s.startTime, estimatedEndTime s,
                               s.cardsReviewed, s.newCards, s.reviewedCards⟩
        let r := endUnfinishedSessions rest (aggregateSessionToDaily daily s')
        ((k, s') :: r.1, r.2)
      else
        let r := endUnfinishedSessions rest daily
        ((k, s) :: r.1, r.2)

/-- `SQLiteSessionRepository.DeleteOrphanedSessions`: delete every session
with no end time and zero reviewed cards. -/
def deleteOrphanedSessions (repo : List (Int × DBSession)) : List (Int × DBSession) :=
  repo.filter (fun p => !(decide ((Prod.snd p).endTime = 0 ∧ (Prod.snd p).cardsReviewed = 0)))

/-- `StatisticsManager.CleanupOrphanedSessions` (database mode): first close
the unfinished sessions with activity, then delete the empty orphans. -/
def cleanupOrphanedSessions (repo : List (Int × DBSession))
    (daily : List (Int × DailyStats)) :
    List (Int × DBSession) × List (Int × DailyStats) :=
  let r := endUnfinishedSessions repo daily
  (deleteOrphanedSessions r.1, r.2)

theorem endUnfinished_no_open (repo : List (Int × DBSession)) :
    ∀ daily : List (Int × DailyStats),
      (∀ p ∈ repo, 0 < (Prod.snd p).startTime) →
      ∀ p ∈ (endUnfinishedSessions repo daily).1,
        ¬ ((Prod.snd p).endTime = 0 ∧ 0 < (Prod.snd p).cardsReviewed) := by
  induction repo with
  | nil =>
      intro daily _ p hp
      simp [endUnfinishedSessions] at hp
  | cons q rest ih =>
      obtain ⟨k, s⟩ := q
      intro daily hstart p hp
      have hs : 0 < s.startTime := hstart (k, s) (List.mem_cons_self _ _)
      have hrest : ∀ p ∈ rest, 0 < (Prod.snd p).startTime :=
        fun p hp => hstart p (List.mem_cons_of_mem _ hp)
      simp only [endUnfinishedSessions] at hp
      by_cases hcond : s.endTime = 0 ∧ 0 < s.cardsReviewed
      · rw [if_pos hcond] at hp
        rcases List.mem_cons.mp hp with h1 | h2
        · subst h1
          intro hcontra
          have he : s.startTime + 30 * (s.cardsReviewed : Int) = 0 := hcontra.1
          have hc : 0 < s.cardsReviewed := hcond.2
          omega
        · exact ih _ hrest p h2
      · rw [if_neg hcond] at hp
        rcases List.mem_cons.mp hp with h1 | h2
        · subst h1
          exact hcond
        · exact ih _ hrest p h2

theorem endUnfinished_eq_of_closed (repo : List (Int × DBSession)) :
    ∀ daily : List (Int × DailyStats),
      (∀ p ∈ repo, ¬ ((Prod.snd p).endTime = 0 ∧ 0 < (Prod.snd p).cardsReviewed)) →
      endUnfinishedSessions repo daily = (repo, daily) := by
  induction repo with
  | nil => intro daily _; rfl
  | cons q rest ih =>
      obtain ⟨k, s⟩ := q
      intro daily h
      have hcond : ¬ (s.endTime = 0 ∧ 0 < s.cardsReviewed) :=
        h (k, s) (List.mem_cons_self _ _)
      simp only [endUnfinishedSessions]
      rw [if_neg hcond, ih daily (fun p hp => h p (List.mem_cons_of_mem _ hp))]

theorem deleteOrphaned_eq_of_closed (repo : List (Int × DBSession))
    (h : ∀ p ∈ repo, (Prod.snd p).endTime ≠ 0) :
    deleteOrphanedSessions repo = repo := by
  unfold deleteOrphanedSessions
  apply List.filter_eq_self.mpr
  intro p hp
  simp [h p hp]

/-- C7: orphan-session recovery is idempotent — when every stored session
started strictly after Go's zero instant (always true of sessions the app
created), running `CleanupOrphanedSessions` twice on the same persisted data
yields exactly the first run's sessions and daily statistics: the second run
accumulates nothing further, because every surviving session then carries a
non-zero end time. -/
theorem cleanup_idempotent :
    ∀ (repo : List (Int × DBSession)) (daily : List (Int × DailyStats)),
      (∀ p ∈ repo, 0 < (Prod.snd p).startTime) →
      cleanupOrphanedSessions (cleanupOrphanedSessions repo daily).1
          (cleanupOrphanedSessions repo daily).2 =
        cleanupOrphanedSessions repo daily := by
  intro repo daily hstart
  have hA : ∀ p ∈ (endUnfinishedSessions repo daily).1,
      ¬ ((Prod.snd p).endTime = 0 ∧ 0 < (Prod.snd p).cardsReviewed) :=
    endUnfinished_no_open repo daily hstart
  have hne : ∀ p ∈ (cleanupOrphanedSessions repo daily).1, (Prod.snd p).endTime ≠ 0 := by
    intro p hp
    have hp' : p ∈ List.filter
        (fun p => !(decide ((Prod.snd p).endTime = 0 ∧ (Prod.snd p).cardsReviewed = 0)))
        (endUnfinishedSessions repo daily).1 := hp
    have hmem := List.mem_filter.mp hp'
    have hA' := hA p hmem.1
    intro he
    have hcards : (Prod.snd p).cardsReviewed = 0 := by
      by_contra hc
      exact hA' ⟨he, Nat.pos_of_ne_zero hc⟩
    have hpred := hmem.2
    simp [he, hcards] at hpred
  have h2 := endUnfinished_eq_of_closed (cleanupOrphanedSessions repo daily).1
      (cleanupOrphanedSessions repo daily).2
      (fun p hp hcontra => hne p hp hcontra.1)
  show (deleteOrphanedSessions (endUnfinishedSessions (cleanupOrphanedSessions repo daily).1
          (cleanupOrphanedSessions repo daily).2).1,
        (endUnfinishedSessions (cleanupOrphanedSessions repo daily).1
          (cleanupOrphanedSessions repo daily).2).2) =
      cleanupOrphanedSessions repo daily
  rw [h2]
  show (deleteOrphanedSessions (cleanupOrphanedSessions repo daily).1,
        (cleanupOrphanedSessions repo daily).2) = cleanupOrphanedSessions repo daily
  rw [deleteOrphaned_eq_of_closed _ hne]

/-- Witness for C7: one orphaned session with activity (id 1, start 100, no
end time, 2 cards) and one empty orphan (id 2). -/
theorem cleanup_idempotent_witness :
    cleanupOrphanedSessions
        (cleanupOrphanedSessions
          [(1, ⟨1, 100, 0, 2, 1, 1⟩), (2, ⟨2, 50, 0, 0, 0, 0⟩)] []).1
        (cleanupOrphanedSessions
          [(1, ⟨1, 100, 0, 2, 1, 1⟩), (2, ⟨2, 50, 0, 0, 0, 0⟩)] []).2 =
      cleanupOrphanedSessions
        [(1, ⟨1, 100, 0, 2, 1, 1⟩), (2, ⟨2, 50, 0, 0, 0, 0⟩)] [] :=
  cleanup_idempotent [(1, ⟨1, 100, 0, 2, 1, 1⟩), (2, ⟨2, 50, 0, 0, 0, 0⟩)] []
    (by decide)

/-! ### The cardsReviewed = newCards + reviewedCards invariant -/

/-- The events the presentation layer can send to the statistics manager. -/
inductive StatOp where
  | startOp (now : Int)
  | recordOp (isNewCard : Bool) (now : Int)
  | endOp (now today : Int)

def applyOp (sm : StatsManager) : StatOp → StatsManager
  | .startOp now => startSession sm now
  | .recordOp b now => recordCardReview sm b now
  | .endOp now today => endSession sm now today

/-- A freshly constructed statistics manager (either backend). -/
def freshManager (useDB : Bool) : StatsManager :=
  ⟨[], none, ⟨0, 0, DateStr.empty⟩, useDB, [], [], 0, 1⟩

def runOps (useDB : Bool) (ops : List StatOp) : StatsManager :=
  ops.foldl applyOp (freshManager useDB)

def SessionBalanced (cs : SessionStats) : Prop :=
  cs.cardsReviewed = cs.newCards + cs.reviewedCards

def DailyBalanced (ds : DailyStats) : Prop :=
  ds.cardsReviewed = ds.newCards + ds.reviewedCards

/-- The invariant of C10 over a manager state: the active session (when
any) and every daily-stats record, in both backends, balance. -/
def ManagerBalanced (sm : StatsManager) : Prop :=
  (∀ cs, sm.currentSession = some cs → SessionBalanced cs) ∧
  (∀ p ∈ sm.dailyStats, DailyBalanced (Prod.snd p)) ∧
  (∀ p ∈ sm.dbDailyStats, DailyBalanced (Prod.snd p))

theorem accumulateDaily_balanced (m : List (Int × DailyStats)) (date dur : Int)
    (cards newC revC : Nat) (hm : ∀ p ∈ m, DailyBalanced (Prod.snd p))
    (hb : cards = newC + revC) :
    ∀ p ∈ accumulateDaily m date dur cards newC revC, DailyBalanced (Prod.snd p) := by
  intro p hp
  unfold accumulateDaily at hp
  cases h : lookupA m date with
  | none =>
      rw [h] at hp
      rcases mem_setA _ _ _ _ hp with h1 | h1
      · subst h1
        exact hb
      · exact hm _ h1
  | some ds =>
      rw [h] at hp
      rcases mem_setA _ _ _ _ hp with h1 | h1
      · subst h1
        have hds : DailyBalanced ds := hm (date, ds) (lookupA_mem h)
        unfold DailyBalanced at hds ⊢
        show ds.cardsReviewed + cards = ds.newCards + newC + (ds.reviewedCards + revC)
        omega
      · exact hm _ h1

theorem balanced_startSession (sm : StatsManager) (now : Int)
    (h : ManagerBalanced sm) : ManagerBalanced (startSession sm now) := by
  obtain ⟨_, h2, h3⟩ := h
  unfold startSession
  by_cases hdb : sm.useDatabase = true
  · rw [if_pos hdb]
    refine ⟨?_, h2, h3⟩
    intro cs hcs
    injection hcs with hcs
    rw [← hcs]
    rfl
  · rw [if_neg hdb]
    refine ⟨?_, h2, h3⟩
    intro cs hcs
    injection hcs with hcs
    rw [← hcs]
    rfl

theorem recordActive_of_none (sm : StatsManager) (b : Bool)
    (h : sm.currentSession = none) : recordActive sm b = sm := by
  unfold recordActive
  rw [h]

theorem recordActive_of_some (sm : StatsManager) (b : Bool) (cs : SessionStats)
    (h : sm.currentSession = some cs) :
    recordActive sm b = recordWith sm (bumpSession cs b) := by
  unfold recordActive
  rw [h]

theorem balanced_recordWith (sm : StatsManager) (cs' : SessionStats)
    (hcs : SessionBalanced cs')
    (h2 : ∀ p ∈ sm.dailyStats, DailyBalanced (Prod.snd p))
    (h3 : ∀ p ∈ sm.dbDailyStats, DailyBalanced (Prod.snd p)) :
    ManagerBalanced (recordWith sm cs') := by
  unfold recordWith
  by_cases hdb : sm.useDatabase = true ∧ 0 < sm.currentSessionID
  · rw [if_pos hdb]
    refine ⟨?_, h2, h3⟩
    intro cs2 hcs2
    injection hcs2 with hcs2
    rw [← hcs2]
    exact hcs
  · rw [if_neg hdb]
    refine ⟨?_, h2, h3⟩
    intro cs2 hcs2
    injection hcs2 with hcs2
    rw [← hcs2]
    exact hcs

theorem balanced_recordActive (sm : StatsManager) (b : Bool)
    (h : ManagerBalanced sm) : ManagerBalanced (recordActive sm b) := by
  obtain ⟨h1, h2, h3⟩ := h
  cases hc : sm.currentSession with
  | none =>
      rw [recordActive_of_none sm b hc]
      exact ⟨h1, h2, h3⟩
  | some cs =>
      rw [recordActive_of_some sm b cs hc]
      have hcs : SessionBalanced cs := h1 cs hc
      have hbump : SessionBalanced (bumpSession cs b) := by
        unfold SessionBalanced at hcs ⊢
        unfold bumpSession
        cases b <;> simp <;> omega
      exact balanced_recordWith sm (bumpSession cs b) hbump h2 h3

theorem balanced_record (sm : StatsManager) (b : Bool) (now : Int)
    (h : ManagerBalanced sm) : ManagerBalanced (recordCardReview sm b now) := by
  unfold recordCardReview
  apply balanced_recordActive
  by_cases hn : sm.currentSession.isNone = true
  · rw [if_pos hn]
    exact balanced_startSession sm now h
  · rw [if_neg hn]
    exact h

theorem endSession_of_some (sm : StatsManager) (now today : Int) (cs0 : SessionStats)
    (h : sm.currentSession = some cs0) :
    endSession sm now today = endWith sm (closeSession cs0 now) now today := by
  unfold endSession
  rw [h]

theorem balanced_endWith (sm : StatsManager) (cs : SessionStats) (now today : Int)
    (hbal : SessionBalanced cs)
    (h2 : ∀ p ∈ sm.dailyStats, DailyBalanced (Prod.snd p))
    (h3 : ∀ p ∈ sm.dbDailyStats, DailyBalanced (Prod.snd p)) :
    ManagerBalanced (endWith sm cs now today) := by
  simp only [endWith]
  by_cases hdb : sm.useDatabase = true
  · rw [if_pos hdb]
    by_cases hid : 0 < sm.currentSessionID
    · rw [if_pos hid]
      exact ⟨fun cs2 hcs2 => by simp at hcs2, h2,
             accumulateDaily_balanced _ _ _ _ _ _ h3 hbal⟩
    · rw [if_neg hid]
      exact ⟨fun cs2 hcs2 => by simp at hcs2, h2,
             accumulateDaily_balanced _ _ _ _ _ _ h3 hbal⟩
  · rw [if_neg hdb]
    exact ⟨fun cs2 hcs2 => by simp at hcs2,
           accumulateDaily_balanced _ _ _ _ _ _ h2 hbal, h3⟩

theorem balanced_endSession (sm : StatsManager) (now today : Int)
    (h : ManagerBalanced sm) : ManagerBalanced (endSession sm now today) := by
  obtain ⟨h1, h2, h3⟩ := h
  cases hc : sm.currentSession with
  | none =>
      rw [endSession_eq_of_none sm now today hc]
      exact ⟨h1, h2, h3⟩
  | some cs0 =>
      rw [endSession_of_some sm now today cs0 hc]
      have hbal : SessionBalanced (closeSession cs0 now) := h1 cs0 hc
      exact balanced_endWith sm (closeSession cs0 now) now today hbal h2 h3

/-- C10: from a fresh statistics manager (either backend), after any
sequence of start/record/end events the active session's counters satisfy
`CardsReviewed = NewCards + ReviewedCards`, and so does every recorded
daily-stats record, in the in-memory map and in the relational table
alike. -/
theorem counters_balanced :
    ∀ (useDB : Bool) (ops : List StatOp), ManagerBalanced (runOps useDB ops) := by
  intro useDB ops
  have haux : ∀ (l : List StatOp) (sm : StatsManager), ManagerBalanced sm →
      ManagerBalanced (l.foldl applyOp sm) := by
    intro l
    induction l with
    | nil => intro sm h; exact h
    | cons op rest ih =>
        intro sm h
        apply ih
        cases op with
        | startOp now => exact balanced_startSession sm now h
        | recordOp b now => exact balanced_record sm b now h
        | endOp now today => exact balanced_endSession sm now today h
  refine haux ops (freshManager useDB) ⟨?_, ?_, ?_⟩
  · intro cs hcs
    simp [freshManager] at hcs
  · intro p hp
    simp [freshManager] at hp
  · intro p hp
    simp [freshManager] at hp

/-- Witness for C10: a concrete run — start, review a new card, review a
seen card, end the session — in file-backed mode. -/
theorem counters_balanced_witness :
    ManagerBalanced (runOps false
      [StatOp.startOp 0, StatOp.recordOp true 10, StatOp.recordOp false 20,
       StatOp.endOp 30 0]) :=
  counters_balanced false
    [StatOp.startOp 0, StatOp.recordOp true 10, StatOp.recordOp false 20,
     StatOp.endOp 30 0]

end Spaced
